import Mathlib

/-!
Verification development for the unitycloudbuild command-line client.

The Go sources (commands.go, types.go) are shallowly embedded below.
Network responses, the file system and the JSON decoder are external
collaborators; they enter the embedding as explicit parameters (oracles),
and the embedding records which network calls and file operations the
code performs so that "no call was made" claims are expressible.
-/

namespace UnityCloudBuild

/-- Modelled from the spec: the declared content type carried in a download
link's metadata (the Go struct for `Link.Meta` is not present in the sources;
the commands code reads `build.Links.DownloadPrimary.Meta.Type`). -/
structure LinkMeta where
  type : String
deriving Repr, DecidableEq

/-- Embeds the Go `Link` struct (types.go): we keep the fields the commands
code reads. -/
structure Link where
  Href : String
  Meta : LinkMeta
deriving Repr, DecidableEq

/-- Embeds the Go `Links` struct (types.go), restricted to the field the
commands code reads (`DownloadPrimary`, optional). -/
structure Links where
  DownloadPrimary : Option Link
deriving Repr, DecidableEq

/-- Embeds the Go `Build` struct (types.go), restricted to the fields the
commands code reads: build number, target id, status string, last built
revision and links.  Timestamps and presentation-only fields are omitted. -/
structure Build where
  Number : Int
  TargetId : String
  Status : String
  LastBuiltRevision : String
  Links : Links
deriving Repr, DecidableEq

/-- Embeds the Go `BuildTarget` struct: identifier, enabled flag and the
most recent builds returned by the listing endpoint. -/
structure BuildTarget where
  Id : String
  Enabled : Bool
  Builds : List Build
deriving Repr, DecidableEq

/-- Modelled from the spec: "a stable identity key derived from
(target identifier, build number) used for de-duplication in monitoring
sets".  The Go method `Build.UniqueId()` is called by
`Builds_WaitForComplete` but its body is not among the sources. -/
def mkUid (targetId : String) (number : Int) : String :=
  targetId ++ "_" ++ toString number

/-- The identity key of a build, see `mkUid`. -/
def Build.UniqueId (b : Build) : String :=
  mkUid b.TargetId b.Number

/-- Outcome of `doRequest` (commands.go): either a decoded payload
(`ok`), one of the two sentinel errors (`RateLimitedError`,
`ResourceNotFoundError`), a server-reported failure carrying the formatted
message, or the process abort `log.Fatal` takes on a decode failure. -/
inductive DoRequestOutcome (α : Type) where
  | ok (payload : Option α)
  | rateLimited
  | resourceNotFound
  | failure (msg : String)
  | fatalDecode
deriving Repr, DecidableEq

/-- The message built by `doRequest`'s default branch:
`fmt.Errorf("[HTTP %d] %s", resp.StatusCode, e.Error)`.  `decodedError`
is the result of `json.Unmarshal(body, &e)` for the `{error: string}`
shape; on unmarshal failure (`none`) the Go zero value `""` is used. -/
def errorMessageText (statusCode : Nat) (decodedError : Option String) : String :=
  "[HTTP " ++ toString statusCode ++ "] " ++ decodedError.getD ""

/-- Embeds `doRequest` (commands.go): classify a transport response by its
status code.  `wantResult` models `result != nil`; `decodeResult` is the
outcome of `json.Unmarshal(body, &result)` (its `none` case is the
`log.Fatal` path); `decodeError` is the outcome of decoding the
`{error: string}` payload. -/
def doRequest (α : Type) (statusCode : Nat) (wantResult : Bool)
    (decodeResult : Option α) (decodeError : Option String) : DoRequestOutcome α :=
  if statusCode = 429 then .rateLimited
  else if statusCode = 200 ∨ statusCode = 202 then
    if wantResult then
      match decodeResult with
      | some a => .ok (some a)
      | none => .fatalDecode
    else .ok none
  else if statusCode = 204 then .ok none
  else if statusCode = 404 then .resourceNotFound
  else .failure (errorMessageText statusCode decodeError)

/-- Embeds `IsBuildActive` (commands.go): a build is active unless its
status is one of the four terminal strings. -/
def IsBuildActive (build : Build) : Bool :=
  if build.Status = "success" ∨ build.Status = "failure" ∨
      build.Status = "canceled" ∨ build.Status = "unknown" then false
  else true

/-- Lookup in an association list with a default, modelling a Go map read
(`m[k]` yields the zero value when the key is absent). -/
def lookupD {α : Type} : List (String × α) → String → α → α
  | [], _, d => d
  | (k', v) :: rest, k, d => if k' = k then v else lookupD rest k d

/-- Write to an association list, modelling a Go map write (`m[k] = v`). -/
def updateAssoc {α : Type} : List (String × α) → String → α → List (String × α)
  | [], k, v => [(k, v)]
  | (k', v') :: rest, k, v =>
      if k' = k then (k, v) :: rest else (k', v') :: updateAssoc rest k v

/-- Outcome of one `Builds_Status` fetch inside the poll loop: an updated
build record, the rate-limit sentinel, or any other error. -/
inductive FetchResult where
  | ok (b : Build)
  | rateLimited
  | err (msg : String)
deriving Repr, DecidableEq

/-- Notifications the poll loop emits: a status transition
(`status changed from %s to %s`) or a completion
(`finished.` / `failed with status`). -/
inductive Event where
  | transition (targetId : String) (number : Int) (oldStatus newStatus : String)
  | completed (targetId : String) (number : Int) (status : String)
deriving Repr, DecidableEq

/-- The mutable state of `Builds_WaitForComplete`'s poll loop: the builds
slice, the `finishedBuilds` and `lastBuildStatus` maps and
`finishedBuildsCount`. -/
structure WatchState where
  builds : List Build
  finished : List (String × Bool)
  lastStatus : List (String × String)
  finishedCount : Nat
deriving Repr, DecidableEq

/-- Result of processing one poll tick: either the loop continues with an
updated state, or the monitor returns an error (a fetch error or the
`abortOnFail` early return).  `events` are the notifications emitted so
far; `calls` are the `(target, number)` status fetches issued so far. -/
inductive TickResult where
  | next (st : WatchState) (events : List Event) (calls : List (String × Int))
  | fatal (msg : String) (events : List Event) (calls : List (String × Int))
deriving Repr, DecidableEq

/-- Network calls recorded in a tick result. -/
def TickResult.calls : TickResult → List (String × Int)
  | .next _ _ c => c
  | .fatal _ _ c => c

/-- The `abortOnFail` early-return message of `Builds_WaitForComplete`. -/
def abortMsg (b : Build) : String :=
  "Aborting early, build: " ++ b.TargetId ++ " #" ++ toString b.Number ++
    " failed with status: " ++ b.Status

/-- Embeds the inner `for i, build := range builds` loop of one poll tick
of `Builds_WaitForComplete` (commands.go).  `pending` are the entries not
yet visited this tick, `done` the already visited prefix of the builds
slice.  A finished entry is skipped; a rate-limited fetch breaks out of
the tick; any other fetch error is returned; otherwise the updated build
replaces the slice entry, a differing status is recorded and reported,
and a terminal status marks the entry finished (returning early when
`abortOnFail` is set and the status is not success). -/
def pollTick (fetch : String → Int → FetchResult) (abortOnFail : Bool) :
    List Build → List Build → List (String × Bool) → List (String × String) →
    Nat → List Event → List (String × Int) → TickResult
  | [], done, fin, last, cnt, evs, calls => .next ⟨done, fin, last, cnt⟩ evs calls
  | b :: rest, done, fin, last, cnt, evs, calls =>
    if lookupD fin b.UniqueId false then
      pollTick fetch abortOnFail rest (done ++ [b]) fin last cnt evs calls
    else
      match fetch b.TargetId b.Number with
      | .rateLimited =>
          .next ⟨done ++ b :: rest, fin, last, cnt⟩ evs
            (calls ++ [(b.TargetId, b.Number)])
      | .err msg => .fatal msg evs (calls ++ [(b.TargetId, b.Number)])
      | .ok ub =>
          if lookupD last ub.UniqueId "" = ub.Status then
            if IsBuildActive ub then
              pollTick fetch abortOnFail rest (done ++ [ub]) fin last cnt evs
                (calls ++ [(b.TargetId, b.Number)])
            else
              if abortOnFail ∧ ub.Status ≠ "success" then
                .fatal (abortMsg ub)
                  (evs ++ [Event.completed ub.TargetId ub.Number ub.Status])
                  (calls ++ [(b.TargetId, b.Number)])
              else
                pollTick fetch abortOnFail rest (done ++ [ub])
                  (updateAssoc fin ub.UniqueId true) last (cnt + 1)
                  (evs ++ [Event.completed ub.TargetId ub.Number ub.Status])
                  (calls ++ [(b.TargetId, b.Number)])
          else
            if IsBuildActive ub then
              pollTick fetch abortOnFail rest (done ++ [ub]) fin
                (updateAssoc last ub.UniqueId ub.Status) cnt
                (evs ++ [Event.transition ub.TargetId ub.Number
                  (lookupD last ub.UniqueId "") ub.Status])
                (calls ++ [(b.TargetId, b.Number)])
            else
              if abortOnFail ∧ ub.Status ≠ "success" then
                .fatal (abortMsg ub)
                  (evs ++ [Event.transition ub.TargetId ub.Number
                      (lookupD last ub.UniqueId "") ub.Status] ++
                    [Event.completed ub.TargetId ub.Number ub.Status])
                  (calls ++ [(b.TargetId, b.Number)])
              else
                pollTick fetch abortOnFail rest (done ++ [ub])
                  (updateAssoc fin ub.UniqueId true)
                  (updateAssoc last ub.UniqueId ub.Status) (cnt + 1)
                  (evs ++ [Event.transition ub.TargetId ub.Number
                      (lookupD last ub.UniqueId "") ub.Status] ++
                    [Event.completed ub.TargetId ub.Number ub.Status])
                  (calls ++ [(b.TargetId, b.Number)])

/-- Result of the whole monitor: all builds succeeded, a build was found
non-successful in the post-loop check, a fatal error (precondition
failure, fetch error or abort), or fuel ran out with the loop still
polling. -/
inductive MonitorResult where
  | allComplete (events : List Event) (calls : List (String × Int))
  | buildFailed (targetId : String) (number : Int) (events : List Event)
      (calls : List (String × Int))
  | fatal (msg : String) (events : List Event) (calls : List (String × Int))
  | outOfFuel (st : WatchState) (events : List Event) (calls : List (String × Int))
deriving Repr, DecidableEq

/-- Network calls recorded in a monitor result. -/
def MonitorResult.calls : MonitorResult → List (String × Int)
  | .allComplete _ c => c
  | .buildFailed _ _ _ c => c
  | .fatal _ _ c => c
  | .outOfFuel _ _ c => c

/-- Embeds the post-loop check of `Builds_WaitForComplete`: report the
first watched build whose final status is not success. -/
def finalCheck (evs : List Event) (calls : List (String × Int)) :
    List Build → MonitorResult
  | [] => .allComplete evs calls
  | b :: rest =>
      if b.Status ≠ "success" then .buildFailed b.TargetId b.Number evs calls
      else finalCheck evs calls rest

/-- Embeds the `Poll:` loop of `Builds_WaitForComplete`, with an explicit
fuel bound in place of the unbounded `for`/`select` (the Go loop has no
other exit than the conditions modelled here).  `fetch tick` is the
status oracle for the given tick. -/
def monitorLoop (fetch : Nat → String → Int → FetchResult) (abortOnFail : Bool) :
    Nat → Nat → WatchState → List Event → List (String × Int) → MonitorResult
  | 0, _, st, evs, calls => .outOfFuel st evs calls
  | fuel + 1, tick, st, evs, calls =>
    match pollTick (fetch tick) abortOnFail st.builds [] st.finished
        st.lastStatus st.finishedCount evs calls with
    | .fatal msg evs' calls' => .fatal msg evs' calls'
    | .next st' evs' calls' =>
      if st'.finishedCount = st'.builds.length then finalCheck evs' calls' st'.builds
      else monitorLoop fetch abortOnFail fuel (tick + 1) st' evs' calls'

/-- The precondition error of `Builds_WaitForComplete` for a watched build
that is already terminal. -/
def notActiveMsg (b : Build) : String :=
  "Build #" ++ toString b.Number ++ " for target " ++ b.TargetId ++ " is not active"

/-- Embeds the watch-set initialization loop of `Builds_WaitForComplete`:
reject any already-terminal build, otherwise seed the `finishedBuilds`
and `lastBuildStatus` maps. -/
def initWatch : List Build → List (String × Bool) → List (String × String) →
    Except String (List (String × Bool) × List (String × String))
  | [], fin, last => .ok (fin, last)
  | b :: rest, fin, last =>
    if IsBuildActive b then
      initWatch rest (updateAssoc fin b.UniqueId false)
        (updateAssoc last b.UniqueId b.Status)
    else .error (notActiveMsg b)

/-- Embeds `Builds_WaitForComplete` (commands.go) from the point where the
watch set has been collected: the empty-set check, the precondition loop
and the poll loop.  `calls` in the result records every status fetch the
poll loop issues. -/
def Builds_WaitForComplete (fetch : Nat → String → Int → FetchResult)
    (abortOnFail : Bool) (fuel : Nat) (builds : List Build) : MonitorResult :=
  if builds.length = 0 then .fatal "No builds found" [] []
  else
    match initWatch builds [] [] with
    | .error msg => .fatal msg [] []
    | .ok (fin, last) =>
        monitorLoop fetch abortOnFail fuel 0 ⟨builds, fin, last, 0⟩ [] []

/-- The error kinds `os.Stat` can report, as the download code
distinguishes them: `notExist` (matched by `os.IsNotExist`) or any
other stat failure. -/
inductive GoStatErr where
  | notExist
  | other
deriving Repr, DecidableEq

/-- The one field of `os.FileInfo` the download code reads. -/
structure FileInfo where
  isDir : Bool
deriving Repr, DecidableEq

/-- The pair returned by `os.Stat`: a `FileInfo` (nil on failure) and an
error (nil on success). -/
structure StatResult where
  info : Option FileInfo
  err : Option GoStatErr
deriving Repr, DecidableEq

/-- The `os.Stat` contract: exactly one of info and err is non-nil. -/
def StatContract (s : StatResult) : Prop :=
  (s.err = none ∧ s.info ≠ none) ∨ (s.err ≠ none ∧ s.info = none)

/-- Embeds `os.IsNotExist(err)`. -/
def isNotExist : Option GoStatErr → Bool
  | some .notExist => true
  | _ => false

/-- Outcome of the destination-directory check of `Builds_Download`:
proceed, the combined missing-or-not-a-directory error, the dedicated
stat-error branch, or the nil dereference. -/
inductive DirCheckOutcome where
  | proceed (info : FileInfo)
  | errNotDir
  | errStat
  | panicNilDeref
deriving Repr, DecidableEq

/-- Embeds the destination check of `Builds_Download` (commands.go):
`if os.IsNotExist(err) || !outputDirInfo.IsDir() { ... } else if err != nil
{ ... }` with Go's short-circuit `||`: when `os.IsNotExist(err)` is false,
`IsDir` is evaluated on `outputDirInfo`, which is nil whenever `os.Stat`
failed — modelled as `panicNilDeref`. -/
def checkOutputDir (s : StatResult) : DirCheckOutcome :=
  if isNotExist s.err then .errNotDir
  else
    match s.info with
    | none => .panicNilDeref
    | some info =>
      if !info.isDir then .errNotDir
      else if s.err.isSome then .errStat
      else .proceed info

/-- The distinct validation errors of `Builds_Download`, one constructor
per `fmt.Errorf` at its rejection sites. -/
inductive DownloadError where
  | notSuccess (status : String)
  | missingLink
  | cannotUnzip (filetype : String)
  | notADirectory (dir : String)
  | statDir
deriving Repr, DecidableEq

/-- Overall outcome of the embedded `Builds_Download` fragment. -/
inductive DownloadOutcome where
  | err (e : DownloadError)
  | transferError (msg : String)
  | panicked
  | completed
deriving Repr, DecidableEq

/-- Result of a `Builds_Download` run: the file system after the call, the
outcome, and whether the artifact transfer was attempted. -/
structure DownloadRun where
  fs : List String
  outcome : DownloadOutcome
  transferAttempted : Bool
deriving Repr, DecidableEq

/-- The local file system as the set of paths that exist. -/
def fileExists (fs : List String) (p : String) : Bool :=
  decide (p ∈ fs)

/-- `os.Create`: the path exists afterwards (an existing file is
truncated in place). -/
def createFile (fs : List String) (p : String) : List String :=
  if p ∈ fs then fs else p :: fs

/-- `os.Remove`: the path no longer exists. -/
def removeFile (fs : List String) (p : String) : List String :=
  fs.filter (fun q => decide (q ≠ p))

/-- Models `strings.ToLower` as the download code uses it (ASCII content
types): lowercase every character. -/
def goToLower (s : String) : String :=
  String.mk (s.data.map Char.toLower)

/-- The artifact server's behaviour for the one `http.Get` of
`grabHttpFile`: a connection-level error, or a response with a status
code and the outcome of streaming its body (`none` = copy succeeded). -/
inductive HttpGetResult where
  | connError (msg : String)
  | response (statusCode : Nat) (copyError : Option String)
deriving Repr, DecidableEq

/-- Embeds `grabHttpFile` (commands.go): a connection failure is returned
as-is, a non-200 status yields the formatted error, otherwise the body
copy's I/O error (if any) is returned. -/
def grabHttpFile : HttpGetResult → Except String Unit
  | .connError msg => .error msg
  | .response status copyError =>
    if status ≠ 200 then
      .error ("Could not download, got status code: " ++ toString status)
    else
      match copyError with
      | some e => .error e
      | none => .ok ()

/-- `Builds_Download` defaults an empty output directory to ".". -/
def defaultDir (outputDir : String) : String :=
  if outputDir.length = 0 then "." else outputDir

/-- Abstraction of `filepath.Join` for the destination path. -/
def pathJoin (dir file : String) : String :=
  dir ++ "/" ++ file

/-- Embeds `Builds_Download` (commands.go) from the point where the build
record has been resolved: the three precondition checks, the destination
check, creation of the output file (at `outputDir/filename`, or at the
temporary path `tmpName` when unzipping), the `grabHttpFile` transfer and
the deferred `os.Remove` of the partially written file on transfer
failure.  `stat` is the `os.Stat` oracle and `http` the artifact server's
response; filename resolution from the URL and the unzip extraction of a
completed download are outside the embedded fragment. -/
def Builds_Download (build : Build) (unzip : Bool) (outputDir : String)
    (stat : String → StatResult) (filename tmpName : String)
    (fs : List String) (http : HttpGetResult) : DownloadRun :=
  if build.Status ≠ "success" then ⟨fs, .err (.notSuccess build.Status), false⟩
  else
    match build.Links.DownloadPrimary with
    | none => ⟨fs, .err .missingLink, false⟩
    | some link =>
      if unzip ∧ goToLower link.Meta.type ≠ "zip" then
        ⟨fs, .err (.cannotUnzip (goToLower link.Meta.type)), false⟩
      else
        match checkOutputDir (stat (defaultDir outputDir)) with
        | .errNotDir => ⟨fs, .err (.notADirectory (defaultDir outputDir)), false⟩
        | .errStat => ⟨fs, .err .statDir, false⟩
        | .panicNilDeref => ⟨fs, .panicked, false⟩
        | .proceed _ =>
          match grabHttpFile http with
          | .error e =>
              ⟨removeFile (createFile fs (if unzip then tmpName else
                    pathJoin (defaultDir outputDir) filename))
                  (if unzip then tmpName else
                    pathJoin (defaultDir outputDir) filename),
               .transferError e, true⟩
          | .ok _ =>
              ⟨createFile fs (if unzip then tmpName else
                  pathJoin (defaultDir outputDir) filename),
               .completed, true⟩

/-- Lookup in an association list without a default, modelling a Go map
read distinguished from absence (`v, ok := m[k]`). -/
def lookupA {α : Type} : List (String × α) → String → Option α
  | [], _ => none
  | (k', v) :: rest, k => if k' = k then some v else lookupA rest k

/-- Embeds `Builds_List` (commands.go) given the transport's decoded
response for the target's build-history query (`server target
filterStatus`); the client-side truncation `entries[0:min(len(entries),
limit)]` applies when `limit > 0`. -/
def Builds_List (server : String → String → List Build)
    (buildTargetId filterStatus : String) (limit : Nat) : List Build :=
  if 0 < limit then
    (server buildTargetId filterStatus).take
      (min (server buildTargetId filterStatus).length limit)
  else server buildTargetId filterStatus

/-- Embeds the first loop of `Builds_Latest` (commands.go): over the
targets returned by the `include_last_success` listing, skipping disabled
targets when `onlyEnabled` is set, record the first listed build (nil
when the target has none). -/
def Builds_Latest_firstPass (onlyEnabled : Bool) :
    List BuildTarget → List (String × Option Build) → List (String × Option Build)
  | [], m => m
  | t :: ts, m =>
    if onlyEnabled && !t.Enabled then Builds_Latest_firstPass onlyEnabled ts m
    else
      match t.Builds with
      | [] => Builds_Latest_firstPass onlyEnabled ts (updateAssoc m t.Id none)
      | b :: _ => Builds_Latest_firstPass onlyEnabled ts (updateAssoc m t.Id (some b))

/-- Embeds the second loop of `Builds_Latest` (run when `onlySuccess` is
false): for each non-skipped target, a per-target `Builds_List` query with
no status filter and limit 1; a non-empty result overrides the map entry.
The returned string list records the ids queried by this pass. -/
def Builds_Latest_secondPass (server : String → String → List Build)
    (onlyEnabled : Bool) :
    List BuildTarget → List (String × Option Build) → List String →
    List (String × Option Build) × List String
  | [], m, calls => (m, calls)
  | t :: ts, m, calls =>
    if onlyEnabled && !t.Enabled then
      Builds_Latest_secondPass server onlyEnabled ts m calls
    else
      match Builds_List server t.Id "" 1 with
      | [] => Builds_Latest_secondPass server onlyEnabled ts m (calls ++ [t.Id])
      | b :: _ =>
          Builds_Latest_secondPass server onlyEnabled ts
            (updateAssoc m t.Id (some b)) (calls ++ [t.Id])

/-- Embeds `Builds_Latest` (commands.go): the first pass over the targets
listing, then, when `onlySuccess` is false, the correcting second pass.
Returns the target-to-build map together with the per-target ids the
second pass queried. -/
def Builds_Latest (server : String → String → List Build)
    (targets : List BuildTarget) (onlySuccess onlyEnabled : Bool) :
    List (String × Option Build) × List String :=
  if onlySuccess then (Builds_Latest_firstPass onlyEnabled targets [], [])
  else
    Builds_Latest_secondPass server onlyEnabled targets
      (Builds_Latest_firstPass onlyEnabled targets []) []

/-- Embeds the per-build loop of `Git_BuildsMatchHead` (commands.go):
`allMatch` is cleared for every build that is not successful or whose
recorded revision differs from the head revision. -/
def checkBuilds (revision : String) : List Build → Bool → Bool
  | [], acc => acc
  | b :: rest, acc =>
    if b.Status ≠ "success" then checkBuilds revision rest false
    else if b.LastBuiltRevision ≠ revision then checkBuilds revision rest false
    else checkBuilds revision rest acc

/-- Embeds the missing-target loop of `Git_BuildsMatchHead`: `allMatch` is
cleared for every target reported as having no successful build. -/
def checkMissing : List String → Bool → Bool
  | [], acc => acc
  | _ :: rest, _ => checkMissing rest false

/-- Embeds the aggregate result of `Git_BuildsMatchHead` (commands.go) from
the point where the watched builds and the missing targets have been
collected: `allMatch` starts true, is cleared by the missing-target loop,
then by the per-build loop. -/
def Git_BuildsMatchHead (revision : String) (builds : List Build)
    (missing : List String) : Bool :=
  checkBuilds revision builds (checkMissing missing true)

/-- Embeds the collection loop of `Git_BuildsMatchHead` over the map
returned by `Builds_Latest`: a target whose entry is nil (no successful
build) goes to the missing list, the rest contribute their build. -/
def collectLatest : List (String × Option Build) → List Build × List String
  | [] => ([], [])
  | (id, none) :: rest => ((collectLatest rest).1, id :: (collectLatest rest).2)
  | (_, some b) :: rest => (b :: (collectLatest rest).1, (collectLatest rest).2)

/-- The per-build match condition of `Git_BuildsMatchHead`'s loop body: the
build is counted as matching iff neither clearing branch fires. -/
def buildMatchesHead (revision : String) (b : Build) : Bool :=
  if b.Status ≠ "success" then false
  else if b.LastBuiltRevision ≠ revision then false
  else true

theorem lookupD_updateAssoc {α : Type} (m : List (String × α)) (k k' : String)
    (v d : α) :
    lookupD (updateAssoc m k v) k' d = if k = k' then v else lookupD m k' d := by
  induction m with
  | nil => simp [updateAssoc, lookupD]
  | cons p rest ih =>
    obtain ⟨pk, pv⟩ := p
    by_cases hpk : pk = k
    · subst hpk
      by_cases h2 : pk = k' <;> simp [updateAssoc, lookupD, h2]
    · by_cases h2 : pk = k'
      · subst h2
        have hk : ¬k = pk := fun h => hpk h.symm
        simp [updateAssoc, lookupD, hpk, hk]
      · simp [updateAssoc, lookupD, hpk, h2, ih]

theorem finalCheck_calls (evs : List Event) (calls : List (String × Int)) :
    ∀ l : List Build, (finalCheck evs calls l).calls = calls := by
  intro l
  induction l with
  | nil => rfl
  | cons b rest ih =>
    by_cases h : b.Status ≠ "success"
    · simp [finalCheck, h, MonitorResult.calls]
    · simp only [finalCheck]
      rw [if_neg h]
      exact ih

theorem finalCheck_ne_outOfFuel (evs : List Event) (calls : List (String × Int)) :
    ∀ (l : List Build) (st : WatchState) (e : List Event) (c : List (String × Int)),
      finalCheck evs calls l ≠ .outOfFuel st e c := by
  intro l
  induction l with
  | nil => intro st e c h; cases h
  | cons b rest ih =>
    intro st e c
    by_cases h : b.Status ≠ "success"
    · simp [finalCheck, h]
    · simp [finalCheck, h]
      exact fun hq => ih st e c hq

theorem bool_eq_false_of_ne_true {b : Bool} (h : ¬b = true) : b = false := by
  cases b
  · rfl
  · exact absurd rfl h

theorem lookupD_true_of_update_true {fin : List (String × Bool)} {uid q : String}
    (htrue : lookupD fin uid false = true) :
    lookupD (updateAssoc fin q true) uid false = true := by
  rw [lookupD_updateAssoc]
  by_cases hq : q = uid <;> simp [hq, htrue]

theorem pollTick_finished_preserved
    (fetch : String → Int → FetchResult) (abortOnFail : Bool) (uid : String) :
    ∀ (pending done : List Build) (fin : List (String × Bool))
      (last : List (String × String)) (cnt : Nat) (evs : List Event)
      (calls : List (String × Int)) (st' : WatchState) (evs' : List Event)
      (calls' : List (String × Int)),
      pollTick fetch abortOnFail pending done fin last cnt evs calls =
        .next st' evs' calls' →
      lookupD fin uid false = true →
      lookupD st'.finished uid false = true := by
  intro pending
  induction pending with
  | nil =>
    intro done fin last cnt evs calls st' evs' calls' h htrue
    simp only [pollTick, TickResult.next.injEq] at h
    obtain ⟨h1, -, -⟩ := h
    rw [← h1]
    exact htrue
  | cons b rest ih =>
    intro done fin last cnt evs calls st' evs' calls' h htrue
    by_cases hfin : lookupD fin b.UniqueId false = true
    · simp only [pollTick, hfin, if_true] at h
      exact ih _ _ _ _ _ _ _ _ _ h htrue
    · have hfin' : lookupD fin b.UniqueId false = false := bool_eq_false_of_ne_true hfin
      cases hfetch : fetch b.TargetId b.Number with
      | rateLimited =>
        simp only [pollTick, hfin', Bool.false_eq_true, if_false, hfetch,
          TickResult.next.injEq] at h
        obtain ⟨h1, -, -⟩ := h
        rw [← h1]
        exact htrue
      | err msg =>
        simp only [pollTick, hfin', Bool.false_eq_true, if_false, hfetch] at h
        exact TickResult.noConfusion h
      | ok ub =>
        by_cases htr : lookupD last ub.UniqueId "" = ub.Status
        · by_cases hact : IsBuildActive ub = true
          · simp only [pollTick, hfin', Bool.false_eq_true, if_false, hfetch, htr,
              if_true, hact] at h
            exact ih _ _ _ _ _ _ _ _ _ h htrue
          · have hact' : IsBuildActive ub = false := bool_eq_false_of_ne_true hact
            by_cases hab : abortOnFail ∧ ub.Status ≠ "success"
            · simp only [pollTick, hfin', Bool.false_eq_true, if_false, hfetch, htr,
                hact', hab.1, if_true, true_and, eq_self_iff_true] at h
              rw [if_pos hab.2] at h
              exact TickResult.noConfusion h
            · simp only [pollTick, hfin', Bool.false_eq_true, if_false, hfetch, htr,
                hact'] at h
              rw [if_neg hab] at h
              exact ih _ _ _ _ _ _ _ _ _ h (lookupD_true_of_update_true htrue)
        · by_cases hact : IsBuildActive ub = true
          · simp only [pollTick, hfin', Bool.false_eq_true, if_false, hfetch,
              if_true, hact] at h
            rw [if_neg htr] at h
            exact ih _ _ _ _ _ _ _ _ _ h htrue
          · have hact' : IsBuildActive ub = false := bool_eq_false_of_ne_true hact
            by_cases hab : abortOnFail ∧ ub.Status ≠ "success"
            · simp only [pollTick, hfin', Bool.false_eq_true, if_false, hfetch,
                hact', hab.1, if_true, true_and, eq_self_iff_true] at h
              rw [if_neg htr] at h
              rw [if_pos hab.2] at h
              exact TickResult.noConfusion h
            · simp only [pollTick, hfin', Bool.false_eq_true, if_false, hfetch,
                hact'] at h
              rw [if_neg htr, if_neg hab] at h
              exact ih _ _ _ _ _ _ _ _ _ h (lookupD_true_of_update_true htrue)

theorem uid_ne_of_lookup {fin : List (String × Bool)} {uid v : String}
    (htrue : lookupD fin uid false = true) (hfalse : lookupD fin v false = false) :
    v ≠ uid := by
  intro h
  rw [h, htrue] at hfalse
  cases hfalse

theorem mem_calls_step {c x : String × Int} {calls : List (String × Int)}
    {uid : String} (hx : mkUid x.1 x.2 ≠ uid)
    (h : c ∈ calls ++ [x] ∨ mkUid c.1 c.2 ≠ uid) :
    c ∈ calls ∨ mkUid c.1 c.2 ≠ uid := by
  rcases h with h | h
  · rcases List.mem_append.mp h with h2 | h2
    · exact Or.inl h2
    · have h3 := List.mem_singleton.mp h2
      subst h3
      exact Or.inr hx
  · exact Or.inr h

theorem pollTick_calls_fresh
    (fetch : String → Int → FetchResult) (abortOnFail : Bool) (uid : String) :
    ∀ (pending done : List Build) (fin : List (String × Bool))
      (last : List (String × String)) (cnt : Nat) (evs : List Event)
      (calls : List (String × Int)),
      lookupD fin uid false = true →
      ∀ c ∈ (pollTick fetch abortOnFail pending done fin last cnt evs calls).calls,
        c ∈ calls ∨ mkUid c.1 c.2 ≠ uid := by
  intro pending
  induction pending with
  | nil =>
    intro done fin last cnt evs calls htrue c hc
    simp only [pollTick, TickResult.calls] at hc
    exact Or.inl hc
  | cons b rest ih =>
    intro done fin last cnt evs calls htrue c hc
    by_cases hfin : lookupD fin b.UniqueId false = true
    · simp only [pollTick, hfin, if_true] at hc
      exact ih _ _ _ _ _ _ htrue c hc
    · have hfin' : lookupD fin b.UniqueId false = false := bool_eq_false_of_ne_true hfin
      have hbne : mkUid b.TargetId b.Number ≠ uid := uid_ne_of_lookup htrue hfin'
      cases hfetch : fetch b.TargetId b.Number with
      | rateLimited =>
        simp only [pollTick, hfin', Bool.false_eq_true, if_false, hfetch,
          TickResult.calls] at hc
        exact mem_calls_step hbne (Or.inl hc)
      | err msg =>
        simp only [pollTick, hfin', Bool.false_eq_true, if_false, hfetch,
          TickResult.calls] at hc
        exact mem_calls_step hbne (Or.inl hc)
      | ok ub =>
        by_cases htr : lookupD last ub.UniqueId "" = ub.Status
        · by_cases hact : IsBuildActive ub = true
          · simp only [pollTick, hfin', Bool.false_eq_true, if_false, hfetch, htr,
              if_true, hact] at hc
            exact mem_calls_step hbne (ih _ _ _ _ _ _ htrue c hc)
          · have hact' : IsBuildActive ub = false := bool_eq_false_of_ne_true hact
            by_cases hab : abortOnFail ∧ ub.Status ≠ "success"
            · simp only [pollTick, hfin', Bool.false_eq_true, if_false, hfetch, htr,
                hact', hab.1, if_true, true_and, eq_self_iff_true] at hc
              rw [if_pos hab.2] at hc
              simp only [TickResult.calls] at hc
              exact mem_calls_step hbne (Or.inl hc)
            · simp only [pollTick, hfin', Bool.false_eq_true, if_false, hfetch, htr,
                hact'] at hc
              rw [if_neg hab] at hc
              exact mem_calls_step hbne
                (ih _ _ _ _ _ _ (lookupD_true_of_update_true htrue) c hc)
        · by_cases hact : IsBuildActive ub = true
          · simp only [pollTick, hfin', Bool.false_eq_true, if_false, hfetch,
              if_true, hact] at hc
            rw [if_neg htr] at hc
            exact mem_calls_step hbne (ih _ _ _ _ _ _ htrue c hc)
          · have hact' : IsBuildActive ub = false := bool_eq_false_of_ne_true hact
            by_cases hab : abortOnFail ∧ ub.Status ≠ "success"
            · simp only [pollTick, hfin', Bool.false_eq_true, if_false, hfetch,
                hact', hab.1, if_true, true_and, eq_self_iff_true] at hc
              rw [if_neg htr] at hc
              rw [if_pos hab.2] at hc
              simp only [TickResult.calls] at hc
              exact mem_calls_step hbne (Or.inl hc)
            · simp only [pollTick, hfin', Bool.false_eq_true, if_false, hfetch,
                hact'] at hc
              rw [if_neg htr, if_neg hab] at hc
              exact mem_calls_step hbne
                (ih _ _ _ _ _ _ (lookupD_true_of_update_true htrue) c hc)

theorem pollTick_events_extend
    (fetch : String → Int → FetchResult) (abortOnFail : Bool) :
    ∀ (pending done : List Build) (fin : List (String × Bool))
      (last : List (String × String)) (cnt : Nat) (evs : List Event)
      (calls : List (String × Int)) (st' : WatchState) (evs' : List Event)
      (calls' : List (String × Int)),
      pollTick fetch abortOnFail pending done fin last cnt evs calls =
        .next st' evs' calls' →
      ∀ e ∈ evs, e ∈ evs' := by
  intro pending
  induction pending with
  | nil =>
    intro done fin last cnt evs calls st' evs' calls' h e he
    simp only [pollTick, TickResult.next.injEq] at h
    obtain ⟨-, h2, -⟩ := h
    rw [← h2]
    exact he
  | cons b rest ih =>
    intro done fin last cnt evs calls st' evs' calls' h e he
    by_cases hfin : lookupD fin b.UniqueId false = true
    · simp only [pollTick, hfin, if_true] at h
      exact ih _ _ _ _ _ _ _ _ _ h e he
    · have hfin' : lookupD fin b.UniqueId false = false := bool_eq_false_of_ne_true hfin
      cases hfetch : fetch b.TargetId b.Number with
      | rateLimited =>
        simp only [pollTick, hfin', Bool.false_eq_true, if_false, hfetch,
          TickResult.next.injEq] at h
        obtain ⟨-, h2, -⟩ := h
        rw [← h2]
        exact he
      | err msg =>
        simp only [pollTick, hfin', Bool.false_eq_true, if_false, hfetch] at h
        exact TickResult.noConfusion h
      | ok ub =>
        by_cases htr : lookupD last ub.UniqueId "" = ub.Status
        · by_cases hact : IsBuildActive ub = true
          · simp only [pollTick, hfin', Bool.false_eq_true, if_false, hfetch, htr,
              if_true, hact] at h
            exact ih _ _ _ _ _ _ _ _ _ h e he
          · have hact' : IsBuildActive ub = false := bool_eq_false_of_ne_true hact
            by_cases hab : abortOnFail ∧ ub.Status ≠ "success"
            · simp only [pollTick, hfin', Bool.false_eq_true, if_false, hfetch, htr,
                hact', hab.1, if_true, true_and, eq_self_iff_true] at h
              rw [if_pos hab.2] at h
              exact TickResult.noConfusion h
            · simp only [pollTick, hfin', Bool.false_eq_true, if_false, hfetch, htr,
                hact'] at h
              rw [if_neg hab] at h
              exact ih _ _ _ _ _ _ _ _ _ h e (List.mem_append_left _ he)
        · by_cases hact : IsBuildActive ub = true
          · simp only [pollTick, hfin', Bool.false_eq_true, if_false, hfetch,
              if_true, hact] at h
            rw [if_neg htr] at h
            exact ih _ _ _ _ _ _ _ _ _ h e (List.mem_append_left _ he)
          · have hact' : IsBuildActive ub = false := bool_eq_false_of_ne_true hact
            by_cases hab : abortOnFail ∧ ub.Status ≠ "success"
            · simp only [pollTick, hfin', Bool.false_eq_true, if_false, hfetch,
                hact', hab.1, if_true, true_and, eq_self_iff_true] at h
              rw [if_neg htr] at h
              rw [if_pos hab.2] at h
              exact TickResult.noConfusion h
            · simp only [pollTick, hfin', Bool.false_eq_true, if_false, hfetch,
                hact'] at h
              rw [if_neg htr, if_neg hab] at h
              exact ih _ _ _ _ _ _ _ _ _ h e
                (List.mem_append_left _ (List.mem_append_left _ he))

theorem pollTick_transition_reported
    (fetch : String → Int → FetchResult) (abortOnFail : Bool) (uid : String) :
    ∀ (pending done : List Build) (fin : List (String × Bool))
      (last : List (String × String)) (cnt : Nat) (evs : List Event)
      (calls : List (String × Int)) (st' : WatchState) (evs' : List Event)
      (calls' : List (String × Int)),
      pollTick fetch abortOnFail pending done fin last cnt evs calls =
        .next st' evs' calls' →
      lookupD st'.lastStatus uid "" ≠ lookupD last uid "" →
      ∃ t n old, Event.transition t n old (lookupD st'.lastStatus uid "") ∈ evs' ∧
        mkUid t n = uid := by
  intro pending
  induction pending with
  | nil =>
    intro done fin last cnt evs calls st' evs' calls' h hch
    simp only [pollTick, TickResult.next.injEq] at h
    obtain ⟨h1, -, -⟩ := h
    rw [← h1] at hch
    exact absurd rfl hch
  | cons b rest ih =>
    intro done fin last cnt evs calls st' evs' calls' h hch
    by_cases hfin : lookupD fin b.UniqueId false = true
    · simp only [pollTick, hfin, if_true] at h
      exact ih _ _ _ _ _ _ _ _ _ h hch
    · have hfin' : lookupD fin b.UniqueId false = false := bool_eq_false_of_ne_true hfin
      cases hfetch : fetch b.TargetId b.Number with
      | rateLimited =>
        simp only [pollTick, hfin', Bool.false_eq_true, if_false, hfetch,
          TickResult.next.injEq] at h
        obtain ⟨h1, -, -⟩ := h
        rw [← h1] at hch
        exact absurd rfl hch
      | err msg =>
        simp only [pollTick, hfin', Bool.false_eq_true, if_false, hfetch] at h
        exact TickResult.noConfusion h
      | ok ub =>
        by_cases htr : lookupD last ub.UniqueId "" = ub.Status
        · by_cases hact : IsBuildActive ub = true
          · simp only [pollTick, hfin', Bool.false_eq_true, if_false, hfetch, htr,
              if_true, hact] at h
            exact ih _ _ _ _ _ _ _ _ _ h hch
          · have hact' : IsBuildActive ub = false := bool_eq_false_of_ne_true hact
            by_cases hab : abortOnFail ∧ ub.Status ≠ "success"
            · simp only [pollTick, hfin', Bool.false_eq_true, if_false, hfetch, htr,
                hact', hab.1, if_true, true_and, eq_self_iff_true] at h
              rw [if_pos hab.2] at h
              exact TickResult.noConfusion h
            · simp only [pollTick, hfin', Bool.false_eq_true, if_false, hfetch, htr,
                hact'] at h
              rw [if_neg hab] at h
              exact ih _ _ _ _ _ _ _ _ _ h hch
        · by_cases hact : IsBuildActive ub = true
          · simp only [pollTick, hfin', Bool.false_eq_true, if_false, hfetch,
              if_true, hact] at h
            rw [if_neg htr] at h
            by_cases hch2 : lookupD st'.lastStatus uid "" =
                lookupD (updateAssoc last ub.UniqueId ub.Status) uid ""
            · by_cases hq : ub.UniqueId = uid
              · refine ⟨ub.TargetId, ub.Number, lookupD last ub.UniqueId "", ?_, hq⟩
                have hval : lookupD st'.lastStatus uid "" = ub.Status := by
                  rw [hch2, lookupD_updateAssoc, if_pos hq]
                rw [hval]
                exact pollTick_events_extend fetch abortOnFail _ _ _ _ _ _ _ _ _ _ h
                  (Event.transition ub.TargetId ub.Number
                    (lookupD last ub.UniqueId "") ub.Status)
                  (by simp)
              · exfalso
                apply hch
                rw [hch2, lookupD_updateAssoc, if_neg hq]
            · exact ih _ _ _ _ _ _ _ _ _ h hch2
          · have hact' : IsBuildActive ub = false := bool_eq_false_of_ne_true hact
            by_cases hab : abortOnFail ∧ ub.Status ≠ "success"
            · simp only [pollTick, hfin', Bool.false_eq_true, if_false, hfetch,
                hact', hab.1, if_true, true_and, eq_self_iff_true] at h
              rw [if_neg htr] at h
              rw [if_pos hab.2] at h
              exact TickResult.noConfusion h
            · simp only [pollTick, hfin', Bool.false_eq_true, if_false, hfetch,
                hact'] at h
              rw [if_neg htr, if_neg hab] at h
              by_cases hch2 : lookupD st'.lastStatus uid "" =
                  lookupD (updateAssoc last ub.UniqueId ub.Status) uid ""
              · by_cases hq : ub.UniqueId = uid
                · refine ⟨ub.TargetId, ub.Number, lookupD last ub.UniqueId "", ?_, hq⟩
                  have hval : lookupD st'.lastStatus uid "" = ub.Status := by
                    rw [hch2, lookupD_updateAssoc, if_pos hq]
                  rw [hval]
                  exact pollTick_events_extend fetch abortOnFail _ _ _ _ _ _ _ _ _ _ h
                    (Event.transition ub.TargetId ub.Number
                      (lookupD last ub.UniqueId "") ub.Status)
                    (by simp)
                · exfalso
                  apply hch
                  rw [hch2, lookupD_updateAssoc, if_neg hq]
              · exact ih _ _ _ _ _ _ _ _ _ h hch2

/-- C5: once a watched build's entry is marked finished, the monitor loop
never fetches its status again in this or any later tick (all subsequently
recorded calls are for other identity keys), the entry is still finished
whenever the loop stops with fuel exhausted, and a single tick preserves
finished entries; moreover, whenever a tick changes the last-observed
status recorded for an identity key, the emitted events contain a
transition notification for that key whose new status is the recorded one
— an observed change is never silently dropped. -/
theorem monitor_finished_entries_invariants :
    (∀ (fetch : Nat → String → Int → FetchResult) (abortOnFail : Bool)
      (fuel tick : Nat) (st : WatchState) (evs : List Event)
      (calls : List (String × Int)) (uid : String),
      lookupD st.finished uid false = true →
      (∀ c ∈ (monitorLoop fetch abortOnFail fuel tick st evs calls).calls,
        c ∈ calls ∨ mkUid c.1 c.2 ≠ uid) ∧
      (∀ (st'' : WatchState) (evs'' : List Event) (calls'' : List (String × Int)),
        monitorLoop fetch abortOnFail fuel tick st evs calls =
          .outOfFuel st'' evs'' calls'' →
        lookupD st''.finished uid false = true)) ∧
    (∀ (fetch : String → Int → FetchResult) (abortOnFail : Bool)
      (pending done : List Build) (fin : List (String × Bool))
      (last : List (String × String)) (cnt : Nat) (evs : List Event)
      (calls : List (String × Int)) (st' : WatchState) (evs' : List Event)
      (calls' : List (String × Int)) (uid : String),
      pollTick fetch abortOnFail pending done fin last cnt evs calls =
        .next st' evs' calls' →
      (lookupD fin uid false = true → lookupD st'.finished uid false = true) ∧
      (lookupD st'.lastStatus uid "" ≠ lookupD last uid "" →
        ∃ t n old, Event.transition t n old (lookupD st'.lastStatus uid "") ∈ evs' ∧
          mkUid t n = uid)) := by
  constructor
  · intro fetch abortOnFail fuel
    induction fuel with
    | zero =>
      intro tick st evs calls uid htrue
      constructor
      · intro c hc
        simp only [monitorLoop, MonitorResult.calls] at hc
        exact Or.inl hc
      · intro st'' evs'' calls'' h
        simp only [monitorLoop, MonitorResult.outOfFuel.injEq] at h
        obtain ⟨h1, -, -⟩ := h
        rw [← h1]
        exact htrue
    | succ fuel ihf =>
      intro tick st evs calls uid htrue
      cases hpt : pollTick (fetch tick) abortOnFail st.builds [] st.finished
          st.lastStatus st.finishedCount evs calls with
      | fatal msg e c =>
        constructor
        · intro c' hc'
          simp only [monitorLoop, hpt, MonitorResult.calls] at hc'
          refine pollTick_calls_fresh (fetch tick) abortOnFail uid st.builds []
            st.finished st.lastStatus st.finishedCount evs calls htrue c' ?_
          rw [hpt]
          exact hc'
        · intro st'' evs'' calls'' h
          simp only [monitorLoop, hpt] at h
          exact MonitorResult.noConfusion h
      | next st' e c =>
        have hfin' := pollTick_finished_preserved (fetch tick) abortOnFail uid
          st.builds [] st.finished st.lastStatus st.finishedCount evs calls
          st' e c hpt htrue
        by_cases hdone : st'.finishedCount = st'.builds.length
        · constructor
          · intro c' hc'
            simp only [monitorLoop, hpt, hdone, if_true] at hc'
            rw [finalCheck_calls] at hc'
            refine pollTick_calls_fresh (fetch tick) abortOnFail uid st.builds []
              st.finished st.lastStatus st.finishedCount evs calls htrue c' ?_
            rw [hpt]
            exact hc'
          · intro st'' evs'' calls'' h
            simp only [monitorLoop, hpt, hdone, if_true] at h
            exact absurd h (finalCheck_ne_outOfFuel _ _ _ _ _ _)
        · constructor
          · intro c' hc'
            simp only [monitorLoop, hpt] at hc'
            rw [if_neg hdone] at hc'
            rcases (ihf (tick + 1) st' e c uid hfin').1 c' hc' with h | h
            · refine pollTick_calls_fresh (fetch tick) abortOnFail uid st.builds []
                st.finished st.lastStatus st.finishedCount evs calls htrue c' ?_
              rw [hpt]
              exact h
            · exact Or.inr h
          · intro st'' evs'' calls'' h
            simp only [monitorLoop, hpt] at h
            rw [if_neg hdone] at h
            exact (ihf (tick + 1) st' e c uid hfin').2 st'' evs'' calls'' h
  · intro fetch abortOnFail pending done fin last cnt evs calls st' evs' calls' uid h
    exact ⟨fun htrue => pollTick_finished_preserved fetch abortOnFail uid pending
        done fin last cnt evs calls st' evs' calls' h htrue,
      fun hch => pollTick_transition_reported fetch abortOnFail uid pending
        done fin last cnt evs calls st' evs' calls' h hch⟩

/-- Concrete instantiation of `monitor_finished_entries_invariants`: a
finished entry with key `t_1` is never re-fetched while another build
completes. -/
theorem monitor_finished_entries_invariants_witness :
    ("u", (2 : Int)) ∈ ([] : List (String × Int)) ∨ mkUid "u" 2 ≠ "t_1" :=
  (monitor_finished_entries_invariants.1
      (fun _ _ _ => FetchResult.ok ⟨2, "u", "success", "", ⟨none⟩⟩) false 2 0
      ⟨[⟨2, "u", "started", "", ⟨none⟩⟩], [("t_1", true), ("u_2", false)],
        [("u_2", "started")], 0⟩ [] [] "t_1" (by decide)).1
    ("u", 2) (by decide)

theorem initWatch_error_of_inactive :
    ∀ (l : List Build) (b : Build) (fin : List (String × Bool))
      (last : List (String × String)),
      b ∈ l → IsBuildActive b = false →
      ∃ b', b' ∈ l ∧ IsBuildActive b' = false ∧
        initWatch l fin last = .error (notActiveMsg b') := by
  intro l
  induction l with
  | nil => intro b fin last h _; cases h
  | cons x rest ih =>
    intro b fin last hmem hinact
    by_cases hx : IsBuildActive x = true
    · have hbr : b ∈ rest := by
        rcases List.mem_cons.mp hmem with h | h
        · rw [h] at hinact; rw [hinact] at hx; cases hx
        · exact h
      obtain ⟨b', hb'mem, hb'in, heq⟩ := ih b
        (updateAssoc fin x.UniqueId false)
        (updateAssoc last x.UniqueId x.Status) hbr hinact
      exact ⟨b', List.mem_cons_of_mem x hb'mem, hb'in, by simp [initWatch, hx, heq]⟩
    · have hx' : IsBuildActive x = false := by
        cases hq : IsBuildActive x
        · rfl
        · exact absurd hq hx
      exact ⟨x, List.mem_cons_self x rest, hx', by simp [initWatch, hx']⟩

/-- C4: a build in the watch set whose initial status is already terminal
makes `Builds_WaitForComplete` return the precondition error before the
poll loop: the result is fatal with an empty event trace and an empty
status-fetch call trace (no poll, no network call). -/
theorem waitForComplete_rejects_terminal :
    ∀ (fetch : Nat → String → Int → FetchResult) (abortOnFail : Bool)
      (fuel : Nat) (builds : List Build) (b : Build),
      b ∈ builds → IsBuildActive b = false →
      ∃ b', b' ∈ builds ∧ IsBuildActive b' = false ∧
        Builds_WaitForComplete fetch abortOnFail fuel builds =
          .fatal (notActiveMsg b') [] [] := by
  intro fetch abortOnFail fuel builds b hmem hinact
  obtain ⟨b', h1, h2, h3⟩ := initWatch_error_of_inactive builds b [] [] hmem hinact
  refine ⟨b', h1, h2, ?_⟩
  have hne : builds.length ≠ 0 := by
    intro h0
    rw [List.length_eq_zero] at h0
    rw [h0] at hmem
    cases hmem
  simp [Builds_WaitForComplete, hne, h3]

/-- Concrete instantiation of `waitForComplete_rejects_terminal`. -/
theorem waitForComplete_rejects_terminal_witness :
    ∃ b', b' ∈ [(⟨3, "t", "success", "", ⟨none⟩⟩ : Build)] ∧
      IsBuildActive b' = false ∧
      Builds_WaitForComplete (fun _ _ _ => FetchResult.rateLimited) false 5
          [⟨3, "t", "success", "", ⟨none⟩⟩] = .fatal (notActiveMsg b') [] [] :=
  waitForComplete_rejects_terminal (fun _ _ _ => FetchResult.rateLimited) false 5
    [⟨3, "t", "success", "", ⟨none⟩⟩] ⟨3, "t", "success", "", ⟨none⟩⟩
    (List.mem_singleton.mpr rfl) (by decide)

/-- C3: inside one poll tick, a rate-limited status fetch ends the tick at
once — the remaining entries are not fetched, the state is unchanged, and
the outcome is `next` (the monitor keeps running into the next tick) —
while any other fetch error makes the tick return that error immediately,
again without fetching remaining entries; the monitor propagates a `next`
outcome into another round of polling rather than failing. -/
theorem pollTick_rateLimit_and_fetch_error :
    (∀ (fetch : String → Int → FetchResult) (abortOnFail : Bool) (b : Build)
      (rest done : List Build) (fin : List (String × Bool))
      (last : List (String × String)) (cnt : Nat) (evs : List Event)
      (calls : List (String × Int)),
      lookupD fin b.UniqueId false = false →
      fetch b.TargetId b.Number = .rateLimited →
      pollTick fetch abortOnFail (b :: rest) done fin last cnt evs calls =
        .next ⟨done ++ b :: rest, fin, last, cnt⟩ evs
          (calls ++ [(b.TargetId, b.Number)])) ∧
    (∀ (fetch : String → Int → FetchResult) (abortOnFail : Bool) (b : Build)
      (rest done : List Build) (fin : List (String × Bool))
      (last : List (String × String)) (cnt : Nat) (evs : List Event)
      (calls : List (String × Int)) (msg : String),
      lookupD fin b.UniqueId false = false →
      fetch b.TargetId b.Number = .err msg →
      pollTick fetch abortOnFail (b :: rest) done fin last cnt evs calls =
        .fatal msg evs (calls ++ [(b.TargetId, b.Number)])) ∧
    (∀ (fetch : Nat → String → Int → FetchResult) (abortOnFail : Bool)
      (fuel tick : Nat) (st : WatchState) (evs : List Event)
      (calls : List (String × Int)) (st' : WatchState) (evs' : List Event)
      (calls' : List (String × Int)),
      pollTick (fetch tick) abortOnFail st.builds [] st.finished st.lastStatus
          st.finishedCount evs calls = .next st' evs' calls' →
      st'.finishedCount ≠ st'.builds.length →
      monitorLoop fetch abortOnFail (fuel + 1) tick st evs calls =
        monitorLoop fetch abortOnFail fuel (tick + 1) st' evs' calls') := by
  refine ⟨?_, ?_, ?_⟩
  · intro fetch abortOnFail b rest done fin last cnt evs calls hfin hfetch
    simp [pollTick, hfin, hfetch]
  · intro fetch abortOnFail b rest done fin last cnt evs calls msg hfin hfetch
    simp [pollTick, hfin, hfetch]
  · intro fetch abortOnFail fuel tick st evs calls st' evs' calls' htick hcnt
    simp [monitorLoop, htick, hcnt]

/-- Concrete instantiation of `pollTick_rateLimit_and_fetch_error`. -/
theorem pollTick_rateLimit_and_fetch_error_witness :
    pollTick (fun _ _ => FetchResult.rateLimited) false
        [⟨1, "t", "queued", "", ⟨none⟩⟩, ⟨2, "u", "started", "", ⟨none⟩⟩]
        [] [] [] 0 [] [] =
      .next ⟨[] ++ [⟨1, "t", "queued", "", ⟨none⟩⟩, ⟨2, "u", "started", "", ⟨none⟩⟩],
          [], [], 0⟩ [] ([] ++ [("t", 1)]) ∧
    pollTick (fun _ _ => FetchResult.err "boom") true
        [⟨1, "t", "queued", "", ⟨none⟩⟩, ⟨2, "u", "started", "", ⟨none⟩⟩]
        [] [] [] 0 [] [] = .fatal "boom" [] ([] ++ [("t", 1)]) :=
  ⟨pollTick_rateLimit_and_fetch_error.1 (fun _ _ => FetchResult.rateLimited) false
      ⟨1, "t", "queued", "", ⟨none⟩⟩ [⟨2, "u", "started", "", ⟨none⟩⟩]
      [] [] [] 0 [] [] rfl rfl,
   pollTick_rateLimit_and_fetch_error.2.1 (fun _ _ => FetchResult.err "boom") true
      ⟨1, "t", "queued", "", ⟨none⟩⟩ [⟨2, "u", "started", "", ⟨none⟩⟩]
      [] [] [] 0 [] [] "boom" rfl rfl⟩

theorem checkMissing_eq (l : List String) :
    ∀ acc : Bool, checkMissing l acc = (acc && l.isEmpty) := by
  induction l with
  | nil => intro acc; simp [checkMissing]
  | cons x rest ih =>
    intro acc
    simp [checkMissing, ih]

theorem checkBuilds_eq (rev : String) (l : List Build) :
    ∀ acc : Bool, checkBuilds rev l acc = (acc && l.all (buildMatchesHead rev)) := by
  induction l with
  | nil => intro acc; simp [checkBuilds]
  | cons b rest ih =>
    intro acc
    by_cases h1 : b.Status ≠ "success"
    · simp [checkBuilds, buildMatchesHead, h1, ih]
    · by_cases h2 : b.LastBuiltRevision ≠ rev
      · simp [checkBuilds, buildMatchesHead, h1, h2, ih]
      · simp [checkBuilds, buildMatchesHead, h1, h2, ih, Bool.and_comm, Bool.and_assoc,
          Bool.and_left_comm]

/-- C7: a build matches the head revision exactly when its status is
success and its recorded revision equals the head revision by full string
equality; a non-success build never matches; a revision differing in any
way (including a proper prefix) never matches; a nil entry in the latest
map is collected as missing; and the aggregate is true exactly when no
target is missing and every considered build matches. -/
theorem matchesHead_semantics :
    (∀ (rev : String) (b : Build),
      buildMatchesHead rev b = true ↔
        b.Status = "success" ∧ b.LastBuiltRevision = rev) ∧
    (∀ (rev : String) (b : Build), b.Status ≠ "success" →
      buildMatchesHead rev b = false) ∧
    (∀ (rev : String) (b : Build), b.LastBuiltRevision ≠ rev →
      buildMatchesHead rev b = false) ∧
    (∀ (latest : List (String × Option Build)) (id : String),
      (id, (none : Option Build)) ∈ latest → id ∈ (collectLatest latest).2) ∧
    (∀ (rev : String) (builds : List Build) (missing : List String),
      Git_BuildsMatchHead rev builds missing = true ↔
        missing = [] ∧ ∀ b ∈ builds, buildMatchesHead rev b = true) := by
  refine ⟨?_, ?_, ?_, ?_, ?_⟩
  · intro rev b
    by_cases h1 : b.Status ≠ "success"
    · simp [buildMatchesHead, h1]
    · by_cases h2 : b.LastBuiltRevision ≠ rev
      · simp [buildMatchesHead, h1, h2]
      · push_neg at h1 h2
        simp [buildMatchesHead, h1, h2]
  · intro rev b h
    simp [buildMatchesHead, h]
  · intro rev b h
    by_cases h1 : b.Status ≠ "success" <;> simp [buildMatchesHead, h1, h]
  · intro latest id hmem
    induction latest with
    | nil => cases hmem
    | cons p rest ih =>
      obtain ⟨pid, popt⟩ := p
      rcases List.mem_cons.mp hmem with h | h
      · have h1 : id = pid ∧ popt = none := by
          injection h with ha hb
          exact ⟨ha, hb.symm⟩
        obtain ⟨rfl, rfl⟩ := h1
        simp [collectLatest]
      · cases popt <;> simp [collectLatest, ih h]
  · intro rev builds missing
    rw [Git_BuildsMatchHead, checkBuilds_eq, checkMissing_eq]
    simp [List.all_eq_true, List.isEmpty_iff]

/-- Concrete instantiation of `matchesHead_semantics`: a successful build
at revision abc123 matches abc123, does not match abc124, and a failed
build never matches. -/
theorem matchesHead_semantics_witness :
    (⟨1, "t", "success", "abc123", ⟨none⟩⟩ : Build).Status = "success" ∧
      (⟨1, "t", "success", "abc123", ⟨none⟩⟩ : Build).LastBuiltRevision = "abc123" ∧
    buildMatchesHead "abc124" ⟨1, "t", "success", "abc123", ⟨none⟩⟩ = false ∧
    buildMatchesHead "abc123" ⟨2, "t", "failure", "abc123", ⟨none⟩⟩ = false :=
  ⟨((matchesHead_semantics.1 "abc123" ⟨1, "t", "success", "abc123", ⟨none⟩⟩).mp
      (by decide)).1,
   ((matchesHead_semantics.1 "abc123" ⟨1, "t", "success", "abc123", ⟨none⟩⟩).mp
      (by decide)).2,
   matchesHead_semantics.2.2.1 "abc124" ⟨1, "t", "success", "abc123", ⟨none⟩⟩
     (by decide),
   matchesHead_semantics.2.1 "abc123" ⟨2, "t", "failure", "abc123", ⟨none⟩⟩
     (by decide)⟩

theorem lookupA_updateAssoc {α : Type} (m : List (String × α)) (k k' : String)
    (v : α) :
    lookupA (updateAssoc m k v) k' = if k = k' then some v else lookupA m k' := by
  induction m with
  | nil => simp [updateAssoc, lookupA]
  | cons p rest ih =>
    obtain ⟨pk, pv⟩ := p
    by_cases hpk : pk = k
    · subst hpk
      by_cases h2 : pk = k' <;> simp [updateAssoc, lookupA, h2]
    · by_cases h2 : pk = k'
      · subst h2
        have hk : ¬k = pk := fun h => hpk h.symm
        simp [updateAssoc, lookupA, hpk, hk]
      · simp [updateAssoc, lookupA, hpk, h2, ih]

theorem mem_updateAssoc {α : Type} {p : String × α} :
    ∀ (m : List (String × α)) (k : String) (v : α),
      p ∈ updateAssoc m k v → p ∈ m ∨ p.1 = k := by
  intro m
  induction m with
  | nil =>
    intro k v h
    have h1 := List.mem_singleton.mp h
    rw [h1]
    exact Or.inr rfl
  | cons q rest ih =>
    intro k v h
    obtain ⟨qk, qv⟩ := q
    by_cases hqk : qk = k
    · subst hqk
      simp only [updateAssoc, if_pos rfl] at h
      rcases List.mem_cons.mp h with h1 | h1
      · rw [h1]
        exact Or.inr rfl
      · exact Or.inl (List.mem_cons_of_mem _ h1)
    · simp only [updateAssoc, if_neg hqk] at h
      rcases List.mem_cons.mp h with h1 | h1
      · rw [h1]
        exact Or.inl (List.mem_cons_self _ _)
      · rcases ih k v h1 with h2 | h2
        · exact Or.inl (List.mem_cons_of_mem _ h2)
        · exact Or.inr h2

theorem buildsList_limit_one (server : String → String → List Build)
    (id : String) (b : Build) (bs : List Build) (h : server id "" = b :: bs) :
    Builds_List server id "" 1 = [b] := by
  rw [Builds_List, h]
  rw [if_pos (by decide : (0 : Nat) < 1)]
  rw [List.length_cons, Nat.min_eq_right (Nat.succ_le_succ (Nat.zero_le _))]
  rfl

theorem secondPass_lookup_notmem (server : String → String → List Build)
    (onlyEnabled : Bool) (id : String) :
    ∀ (ts : List BuildTarget) (m : List (String × Option Build))
      (calls : List String),
      id ∉ ts.map BuildTarget.Id →
      lookupA (Builds_Latest_secondPass server onlyEnabled ts m calls).1 id =
        lookupA m id := by
  intro ts
  induction ts with
  | nil => intro m calls _; rfl
  | cons t rest ih =>
    intro m calls h
    rw [List.map_cons] at h
    simp only [List.mem_cons, not_or] at h
    obtain ⟨h1, h2⟩ := h
    by_cases hsk : (onlyEnabled && !t.Enabled) = true
    · simp only [Builds_Latest_secondPass, hsk, if_true]
      exact ih m calls h2
    · have hsk' := bool_eq_false_of_ne_true hsk
      cases hl : Builds_List server t.Id "" 1 with
      | nil =>
        simp only [Builds_Latest_secondPass, hsk', Bool.false_eq_true, if_false, hl]
        exact ih _ _ h2
      | cons b2 rest2 =>
        simp only [Builds_Latest_secondPass, hsk', Bool.false_eq_true, if_false, hl]
        rw [ih _ _ h2, lookupA_updateAssoc]
        rw [if_neg (fun he => h1 he.symm)]

theorem secondPass_lookup_enabled (server : String → String → List Build)
    (t : BuildTarget) (b : Build) (bs : List Build) :
    ∀ (ts : List BuildTarget) (m : List (String × Option Build))
      (calls : List String),
      (ts.map BuildTarget.Id).Nodup → t ∈ ts → t.Enabled = true →
      server t.Id "" = b :: bs →
      lookupA (Builds_Latest_secondPass server true ts m calls).1 t.Id =
        some (some b) := by
  intro ts
  induction ts with
  | nil => intro m calls _ hmem; cases hmem
  | cons u rest ih =>
    intro m calls hnd hmem hen hsrv
    rw [List.map_cons] at hnd
    rcases List.mem_cons.mp hmem with heq | hmem2
    · subst heq
      have hsk : (true && !t.Enabled) = false := by rw [hen]; rfl
      have hnotmem : t.Id ∉ rest.map BuildTarget.Id := (List.nodup_cons.mp hnd).1
      simp only [Builds_Latest_secondPass, hsk, Bool.false_eq_true, if_false,
        buildsList_limit_one server t.Id b bs hsrv]
      rw [secondPass_lookup_notmem server true t.Id rest _ _ hnotmem]
      rw [lookupA_updateAssoc, if_pos rfl]
    · have hnd2 := (List.nodup_cons.mp hnd).2
      by_cases hsk : (true && !u.Enabled) = true
      · simp only [Builds_Latest_secondPass, hsk, if_true]
        exact ih _ _ hnd2 hmem2 hen hsrv
      · have hsk' := bool_eq_false_of_ne_true hsk
        cases hl : Builds_List server u.Id "" 1 with
        | nil =>
          simp only [Builds_Latest_secondPass, hsk', Bool.false_eq_true, if_false, hl]
          exact ih _ _ hnd2 hmem2 hen hsrv
        | cons b2 rest2 =>
          simp only [Builds_Latest_secondPass, hsk', Bool.false_eq_true, if_false, hl]
          exact ih _ _ hnd2 hmem2 hen hsrv

theorem secondPass_calls_enabled (server : String → String → List Build) :
    ∀ (ts : List BuildTarget) (m : List (String × Option Build))
      (calls : List String) (id : String),
      id ∈ (Builds_Latest_secondPass server true ts m calls).2 →
      id ∈ calls ∨ ∃ t, t ∈ ts ∧ t.Id = id ∧ t.Enabled = true := by
  intro ts
  induction ts with
  | nil => intro m calls id h; exact Or.inl h
  | cons u rest ih =>
    intro m calls id h
    by_cases hsk : (true && !u.Enabled) = true
    · simp only [Builds_Latest_secondPass, hsk, if_true] at h
      rcases ih _ _ _ h with h1 | ⟨t, ht, h2, h3⟩
      · exact Or.inl h1
      · exact Or.inr ⟨t, List.mem_cons_of_mem _ ht, h2, h3⟩
    · have hen : u.Enabled = true := by
        cases he : u.Enabled
        · exact absurd (by rw [he]; rfl) hsk
        · rfl
      have hsk' := bool_eq_false_of_ne_true hsk
      have step : ∀ m2,
          id ∈ (Builds_Latest_secondPass server true rest m2 (calls ++ [u.Id])).2 →
          id ∈ calls ∨ ∃ t, t ∈ u :: rest ∧ t.Id = id ∧ t.Enabled = true := by
        intro m2 h2
        rcases ih _ _ _ h2 with h3 | ⟨t, ht, h4, h5⟩
        · rcases List.mem_append.mp h3 with h4 | h4
          · exact Or.inl h4
          · have h5 := List.mem_singleton.mp h4
            exact Or.inr ⟨u, List.mem_cons_self _ _, h5.symm, hen⟩
        · exact Or.inr ⟨t, List.mem_cons_of_mem _ ht, h4, h5⟩
      cases hl : Builds_List server u.Id "" 1 with
      | nil =>
        simp only [Builds_Latest_secondPass, hsk', Bool.false_eq_true, if_false,
          hl] at h
        exact step _ h
      | cons b2 rest2 =>
        simp only [Builds_Latest_secondPass, hsk', Bool.false_eq_true, if_false,
          hl] at h
        exact step _ h

theorem firstPass_mem_enabled :
    ∀ (ts : List BuildTarget) (m : List (String × Option Build))
      (p : String × Option Build),
      p ∈ Builds_Latest_firstPass true ts m →
      p ∈ m ∨ ∃ t, t ∈ ts ∧ t.Id = p.1 ∧ t.Enabled = true := by
  intro ts
  induction ts with
  | nil => intro m p h; exact Or.inl h
  | cons u rest ih =>
    intro m p h
    by_cases hsk : (true && !u.Enabled) = true
    · simp only [Builds_Latest_firstPass, hsk, if_true] at h
      rcases ih _ _ h with h1 | ⟨t, ht, h2, h3⟩
      · exact Or.inl h1
      · exact Or.inr ⟨t, List.mem_cons_of_mem _ ht, h2, h3⟩
    · have hen : u.Enabled = true := by
        cases he : u.Enabled
        · exact absurd (by rw [he]; rfl) hsk
        · rfl
      have hsk' := bool_eq_false_of_ne_true hsk
      have step : ∀ v, p ∈ Builds_Latest_firstPass true rest (updateAssoc m u.Id v) →
          p ∈ m ∨ ∃ t, t ∈ u :: rest ∧ t.Id = p.1 ∧ t.Enabled = true := by
        intro v h2
        rcases ih _ _ h2 with h3 | ⟨t, ht, h4, h5⟩
        · rcases mem_updateAssoc m u.Id v h3 with h4 | h4
          · exact Or.inl h4
          · exact Or.inr ⟨u, List.mem_cons_self _ _, h4.symm, hen⟩
        · exact Or.inr ⟨t, List.mem_cons_of_mem _ ht, h4, h5⟩
      cases hb : u.Builds with
      | nil =>
        simp only [Builds_Latest_firstPass, hsk', Bool.false_eq_true, if_false,
          hb] at h
        exact step none h
      | cons b2 rest2 =>
        simp only [Builds_Latest_firstPass, hsk', Bool.false_eq_true, if_false,
          hb] at h
        exact step (some b2) h

theorem secondPass_mem_enabled (server : String → String → List Build) :
    ∀ (ts : List BuildTarget) (m : List (String × Option Build))
      (calls : List String) (p : String × Option Build),
      p ∈ (Builds_Latest_secondPass server true ts m calls).1 →
      p ∈ m ∨ ∃ t, t ∈ ts ∧ t.Id = p.1 ∧ t.Enabled = true := by
  intro ts
  induction ts with
  | nil => intro m calls p h; exact Or.inl h
  | cons u rest ih =>
    intro m calls p h
    by_cases hsk : (true && !u.Enabled) = true
    · simp only [Builds_Latest_secondPass, hsk, if_true] at h
      rcases ih _ _ _ h with h1 | ⟨t, ht, h2, h3⟩
      · exact Or.inl h1
      · exact Or.inr ⟨t, List.mem_cons_of_mem _ ht, h2, h3⟩
    · have hen : u.Enabled = true := by
        cases he : u.Enabled
        · exact absurd (by rw [he]; rfl) hsk
        · rfl
      have hsk' := bool_eq_false_of_ne_true hsk
      cases hl : Builds_List server u.Id "" 1 with
      | nil =>
        simp only [Builds_Latest_secondPass, hsk', Bool.false_eq_true, if_false,
          hl] at h
        rcases ih _ _ _ h with h1 | ⟨t, ht, h2, h3⟩
        · exact Or.inl h1
        · exact Or.inr ⟨t, List.mem_cons_of_mem _ ht, h2, h3⟩
      | cons b2 rest2 =>
        simp only [Builds_Latest_secondPass, hsk', Bool.false_eq_true, if_false,
          hl] at h
        rcases ih _ _ _ h with h1 | ⟨t, ht, h2, h3⟩
        · rcases mem_updateAssoc m u.Id (some b2) h1 with h4 | h4
          · exact Or.inl h4
          · exact Or.inr ⟨u, List.mem_cons_self _ _, h4.symm, hen⟩
        · exact Or.inr ⟨t, List.mem_cons_of_mem _ ht, h2, h3⟩

/-- C6: `Builds_Latest` with `onlySuccess = false` and `onlyEnabled = true`
never records a second-pass query for a disabled target and never maps a
disabled target's id (both passes exclude them), and for an enabled target
with distinct target ids whose unfiltered history starts with build `b`
(the last attempted build) the returned map holds `b` — and in particular
not the last successful build when that differs. -/
theorem buildsLatest_enabled_and_attempted :
    (∀ (server : String → String → List Build) (targets : List BuildTarget)
      (t : BuildTarget) (b : Build) (bs : List Build) (s : Build) (ss : List Build),
      (targets.map BuildTarget.Id).Nodup → t ∈ targets → t.Enabled = true →
      server t.Id "" = b :: bs → t.Builds = s :: ss → s ≠ b →
      lookupA (Builds_Latest server targets false true).1 t.Id = some (some b) ∧
        lookupA (Builds_Latest server targets false true).1 t.Id ≠ some (some s)) ∧
    (∀ (server : String → String → List Build) (targets : List BuildTarget)
      (id : String),
      id ∈ (Builds_Latest server targets false true).2 →
      ∃ t, t ∈ targets ∧ t.Id = id ∧ t.Enabled = true) ∧
    (∀ (server : String → String → List Build) (targets : List BuildTarget)
      (p : String × Option Build),
      p ∈ (Builds_Latest server targets false true).1 →
      ∃ t, t ∈ targets ∧ t.Id = p.1 ∧ t.Enabled = true) := by
  refine ⟨?_, ?_, ?_⟩
  · intro server targets t b bs s ss hnd hmem hen hsrv _ hne
    have h1 : lookupA (Builds_Latest server targets false true).1 t.Id =
        some (some b) := by
      simp only [Builds_Latest, Bool.false_eq_true, if_false]
      exact secondPass_lookup_enabled server t b bs targets _ [] hnd hmem hen hsrv
    refine ⟨h1, ?_⟩
    intro h2
    rw [h1] at h2
    injection h2 with h3
    injection h3 with h4
    exact hne h4.symm
  · intro server targets id h
    simp only [Builds_Latest, Bool.false_eq_true, if_false] at h
    rcases secondPass_calls_enabled server targets _ [] id h with h1 | h1
    · cases h1
    · exact h1
  · intro server targets p h
    simp only [Builds_Latest, Bool.false_eq_true, if_false] at h
    rcases secondPass_mem_enabled server targets _ [] p h with h1 | h1
    · rcases firstPass_mem_enabled targets [] p h1 with h2 | h2
      · cases h2
      · exact h2
    · exact h1

/-- Concrete instantiation of `buildsLatest_enabled_and_attempted`: the
enabled target `a` has last success #1 but last attempt #2 (a failure);
the map reports #2, not #1. -/
theorem buildsLatest_enabled_and_attempted_witness :
    lookupA (Builds_Latest
        (fun id _ => if id = "a" then [⟨2, "a", "failure", "r2", ⟨none⟩⟩] else [])
        [⟨"a", true, [⟨1, "a", "success", "r1", ⟨none⟩⟩]⟩, ⟨"d", false, []⟩]
        false true).1 "a" = some (some ⟨2, "a", "failure", "r2", ⟨none⟩⟩) ∧
      lookupA (Builds_Latest
        (fun id _ => if id = "a" then [⟨2, "a", "failure", "r2", ⟨none⟩⟩] else [])
        [⟨"a", true, [⟨1, "a", "success", "r1", ⟨none⟩⟩]⟩, ⟨"d", false, []⟩]
        false true).1 "a" ≠ some (some ⟨1, "a", "success", "r1", ⟨none⟩⟩) :=
  buildsLatest_enabled_and_attempted.1
    (fun id _ => if id = "a" then [⟨2, "a", "failure", "r2", ⟨none⟩⟩] else [])
    [⟨"a", true, [⟨1, "a", "success", "r1", ⟨none⟩⟩]⟩, ⟨"d", false, []⟩]
    ⟨"a", true, [⟨1, "a", "success", "r1", ⟨none⟩⟩]⟩
    ⟨2, "a", "failure", "r2", ⟨none⟩⟩ []
    ⟨1, "a", "success", "r1", ⟨none⟩⟩ []
    (by decide) (by decide) rfl (by decide) rfl (by decide)

theorem fileExists_removeFile_self (fs : List String) (p : String) :
    fileExists (removeFile fs p) p = false := by
  simp [fileExists, removeFile, List.mem_filter]

theorem fileExists_remove_create (fs : List String) (cp q : String)
    (hq : fileExists fs q = false) :
    fileExists (removeFile (createFile fs cp) cp) q = false := by
  by_cases hcq : q = cp
  · rw [hcq]
    exact fileExists_removeFile_self _ _
  · simp only [fileExists, removeFile, createFile, decide_eq_false_iff_not] at hq ⊢
    intro hmem
    apply hq
    have h1 := (List.mem_filter.mp hmem).1
    by_cases hin : cp ∈ fs
    · rw [if_pos hin] at h1
      exact h1
    · rw [if_neg hin] at h1
      rcases List.mem_cons.mp h1 with h2 | h2
      · exact absurd h2 hcq
      · exact h2

/-- C10: under the `os.Stat` contract (exactly one of file info and error
is nil), the destination guard of `Builds_Download` never reaches the
dedicated stat-error branch: a stat failure other than not-exist makes the
guard evaluate `IsDir` on the nil info (a nil dereference), and the
missing-or-not-a-directory error is returned exactly when the destination
does not exist or exists and is not a directory. -/
theorem statError_branch_unreachable :
    (∀ s : StatResult, StatContract s → checkOutputDir s ≠ .errStat) ∧
    (∀ s : StatResult, s.err = some .other → s.info = none →
      checkOutputDir s = .panicNilDeref) ∧
    (∀ s : StatResult, StatContract s →
      (checkOutputDir s = .errNotDir ↔
        s.err = some .notExist ∨ ∃ i, s.info = some i ∧ i.isDir = false)) := by
  refine ⟨?_, ?_, ?_⟩
  · rintro ⟨info, err⟩ hc
    rcases err with - | e
    · rcases info with - | i
      · rcases hc with ⟨-, h⟩ | ⟨h, -⟩ <;> exact absurd rfl h
      · cases hi : i.isDir <;> simp [checkOutputDir, isNotExist, hi]
    · rcases info with - | i
      · cases e <;> simp [checkOutputDir, isNotExist]
      · rcases hc with ⟨h, -⟩ | ⟨-, h⟩ <;> cases h
  · rintro ⟨info, err⟩ h1 h2
    simp only at h1 h2
    rw [h1, h2]
    rfl
  · rintro ⟨info, err⟩ hc
    rcases err with - | e
    · rcases info with - | i
      · rcases hc with ⟨-, h⟩ | ⟨h, -⟩ <;> exact absurd rfl h
      · cases hi : i.isDir <;> simp [checkOutputDir, isNotExist, hi]
    · rcases info with - | i
      · cases e <;> simp [checkOutputDir, isNotExist]
      · rcases hc with ⟨h, -⟩ | ⟨-, h⟩ <;> cases h

/-- Concrete instantiation of `statError_branch_unreachable`: a
permission-style stat failure drives the guard into the nil dereference. -/
theorem statError_branch_unreachable_witness :
    checkOutputDir ⟨none, some GoStatErr.other⟩ = .panicNilDeref :=
  statError_branch_unreachable.2.1 ⟨none, some GoStatErr.other⟩ rfl rfl

/-- C8: the resolved-build validation of `Builds_Download` rejects — with
the transfer not attempted and the file system untouched — using four
pairwise-distinct errors (distinct constructors of `DownloadError`): a
non-success status, a missing download link, unzip requested with a
non-zip declared content type, and a destination that is missing or not a
directory. -/
theorem download_validation_rejects :
    (∀ (build : Build) (unzip : Bool) (outputDir : String)
      (stat : String → StatResult) (filename tmpName : String)
      (fs : List String) (http : HttpGetResult),
      build.Status ≠ "success" →
      Builds_Download build unzip outputDir stat filename tmpName fs http =
        ⟨fs, .err (.notSuccess build.Status), false⟩) ∧
    (∀ (build : Build) (unzip : Bool) (outputDir : String)
      (stat : String → StatResult) (filename tmpName : String)
      (fs : List String) (http : HttpGetResult),
      build.Status = "success" → build.Links.DownloadPrimary = none →
      Builds_Download build unzip outputDir stat filename tmpName fs http =
        ⟨fs, .err .missingLink, false⟩) ∧
    (∀ (build : Build) (outputDir : String) (stat : String → StatResult)
      (filename tmpName : String) (fs : List String) (http : HttpGetResult)
      (link : Link),
      build.Status = "success" → build.Links.DownloadPrimary = some link →
      goToLower link.Meta.type ≠ "zip" →
      Builds_Download build true outputDir stat filename tmpName fs http =
        ⟨fs, .err (.cannotUnzip (goToLower link.Meta.type)), false⟩) ∧
    (∀ (build : Build) (unzip : Bool) (outputDir : String)
      (stat : String → StatResult) (filename tmpName : String)
      (fs : List String) (http : HttpGetResult) (link : Link),
      build.Status = "success" → build.Links.DownloadPrimary = some link →
      (unzip = false ∨ goToLower link.Meta.type = "zip") →
      checkOutputDir (stat (defaultDir outputDir)) = .errNotDir →
      Builds_Download build unzip outputDir stat filename tmpName fs http =
        ⟨fs, .err (.notADirectory (defaultDir outputDir)), false⟩) := by
  refine ⟨?_, ?_, ?_, ?_⟩
  · intro build unzip outputDir stat filename tmpName fs http h
    simp [Builds_Download, h]
  · intro build unzip outputDir stat filename tmpName fs http h1 h2
    simp [Builds_Download, h1, h2]
  · intro build outputDir stat filename tmpName fs http link h1 h2 h3
    simp [Builds_Download, h1, h2, h3]
  · intro build unzip outputDir stat filename tmpName fs http link h1 h2 h3 hco
    rcases h3 with h3 | h3 <;> simp [Builds_Download, h1, h2, h3, hco]

/-- Concrete instantiation of `download_validation_rejects`: a queued
build is rejected with the status error, and a non-zip link with unzip
requested is rejected with the content-type error. -/
theorem download_validation_rejects_witness :
    Builds_Download ⟨1, "t", "queued", "", ⟨none⟩⟩ false "out"
        (fun _ => ⟨some ⟨true⟩, none⟩) "f" "tmp" [] (.response 200 none) =
      ⟨[], .err (.notSuccess "queued"), false⟩ ∧
    Builds_Download ⟨1, "t", "success", "",
          ⟨some ⟨"http://x/f", ⟨"TAR"⟩⟩⟩⟩ true "out"
        (fun _ => ⟨some ⟨true⟩, none⟩) "f" "tmp" [] (.response 200 none) =
      ⟨[], .err (.cannotUnzip (goToLower "TAR")), false⟩ :=
  ⟨download_validation_rejects.1 ⟨1, "t", "queued", "", ⟨none⟩⟩ false "out"
      (fun _ => ⟨some ⟨true⟩, none⟩) "f" "tmp" [] (.response 200 none) (by decide),
   download_validation_rejects.2.2.1 ⟨1, "t", "success", "",
        ⟨some ⟨"http://x/f", ⟨"TAR"⟩⟩⟩⟩ "out"
      (fun _ => ⟨some ⟨true⟩, none⟩) "f" "tmp" [] (.response 200 none)
      ⟨"http://x/f", ⟨"TAR"⟩⟩ rfl rfl (by decide)⟩

/-- C9: when validation passes and `grabHttpFile` fails (connection error,
non-200 status, or an I/O error while streaming), `Builds_Download`
returns the transfer error and removes the partially-written file: the
created path is absent afterwards, and the final destination path —
untouched beforehand — holds no file after the call. -/
theorem download_transfer_failure_removes_partial :
    ∀ (build : Build) (link : Link) (unzip : Bool) (outputDir : String)
      (stat : String → StatResult) (filename tmpName : String)
      (fs : List String) (http : HttpGetResult) (e : String),
      build.Status = "success" →
      build.Links.DownloadPrimary = some link →
      (unzip = false ∨ goToLower link.Meta.type = "zip") →
      (∃ i, checkOutputDir (stat (defaultDir outputDir)) = .proceed i) →
      grabHttpFile http = .error e →
      (Builds_Download build unzip outputDir stat filename tmpName fs http).outcome =
          .transferError e ∧
      (Builds_Download build unzip outputDir stat filename tmpName fs
          http).transferAttempted = true ∧
      fileExists (Builds_Download build unzip outputDir stat filename tmpName
          fs http).fs
        (if unzip then tmpName else pathJoin (defaultDir outputDir) filename) =
          false ∧
      (fileExists fs (pathJoin (defaultDir outputDir) filename) = false →
        fileExists (Builds_Download build unzip outputDir stat filename tmpName
            fs http).fs (pathJoin (defaultDir outputDir) filename) = false) := by
  intro build link unzip outputDir stat filename tmpName fs http e h1 h2 h3 hco hgrab
  obtain ⟨i, hco⟩ := hco
  have hred : Builds_Download build unzip outputDir stat filename tmpName fs http =
      ⟨removeFile (createFile fs (if unzip then tmpName else
            pathJoin (defaultDir outputDir) filename))
          (if unzip then tmpName else pathJoin (defaultDir outputDir) filename),
        .transferError e, true⟩ := by
    rcases h3 with h3 | h3 <;> simp [Builds_Download, h1, h2, h3, hco, hgrab]
  rw [hred]
  refine ⟨rfl, rfl, fileExists_removeFile_self _ _, ?_⟩
  intro hq
  cases unzip with
  | true => exact fileExists_remove_create _ _ _ hq
  | false => exact fileExists_remove_create _ _ _ hq

/-- Concrete instantiation of
`download_transfer_failure_removes_partial`: a 500 response mid-transfer
leaves no file at the destination. -/
theorem download_transfer_failure_removes_partial_witness :
    (Builds_Download ⟨1, "t", "success", "", ⟨some ⟨"http://x/f", ⟨"zip"⟩⟩⟩⟩
        false "out" (fun _ => ⟨some ⟨true⟩, none⟩) "f.zip" "tmp" []
        (.response 500 none)).outcome =
      .transferError ("Could not download, got status code: " ++ toString 500) ∧
    (Builds_Download ⟨1, "t", "success", "", ⟨some ⟨"http://x/f", ⟨"zip"⟩⟩⟩⟩
        false "out" (fun _ => ⟨some ⟨true⟩, none⟩) "f.zip" "tmp" []
        (.response 500 none)).transferAttempted = true ∧
    fileExists (Builds_Download ⟨1, "t", "success", "",
          ⟨some ⟨"http://x/f", ⟨"zip"⟩⟩⟩⟩
        false "out" (fun _ => ⟨some ⟨true⟩, none⟩) "f.zip" "tmp" []
        (.response 500 none)).fs
      (if false then "tmp" else pathJoin (defaultDir "out") "f.zip") = false ∧
    (fileExists [] (pathJoin (defaultDir "out") "f.zip") = false →
      fileExists (Builds_Download ⟨1, "t", "success", "",
            ⟨some ⟨"http://x/f", ⟨"zip"⟩⟩⟩⟩
          false "out" (fun _ => ⟨some ⟨true⟩, none⟩) "f.zip" "tmp" []
          (.response 500 none)).fs (pathJoin (defaultDir "out") "f.zip") = false) :=
  download_transfer_failure_removes_partial
    ⟨1, "t", "success", "", ⟨some ⟨"http://x/f", ⟨"zip"⟩⟩⟩⟩
    ⟨"http://x/f", ⟨"zip"⟩⟩ false "out" (fun _ => ⟨some ⟨true⟩, none⟩)
    "f.zip" "tmp" [] (.response 500 none)
    ("Could not download, got status code: " ++ toString 500)
    rfl rfl (Or.inl rfl) ⟨⟨true⟩, rfl⟩ rfl

/-- C1: `doRequest` classifies a transport response by status code: 200/202
with a body decode into the caller's shape; 204 is success with no payload;
404 is the resource-not-found sentinel; 429 is the rate-limited sentinel;
any other status is a failure whose message embeds the numeric status code
and, when the `{error: string}` decode succeeds, the decoded message. -/
theorem doRequest_classifies_responses :
    (∀ (α : Type) (code : Nat) (a : α) (de : Option String),
      code = 200 ∨ code = 202 →
      doRequest α code true (some a) de = .ok (some a)) ∧
    (∀ (α : Type) (w : Bool) (dr : Option α) (de : Option String),
      doRequest α 204 w dr de = .ok none) ∧
    (∀ (α : Type) (w : Bool) (dr : Option α) (de : Option String),
      doRequest α 404 w dr de = .resourceNotFound) ∧
    (∀ (α : Type) (w : Bool) (dr : Option α) (de : Option String),
      doRequest α 429 w dr de = .rateLimited) ∧
    (∀ (α : Type) (code : Nat) (w : Bool) (dr : Option α) (e : String),
      code ∉ ([429, 200, 202, 204, 404] : List Nat) →
      doRequest α code w dr (some e) =
        .failure ("[HTTP " ++ toString code ++ "] " ++ e)) := by
  refine ⟨?_, ?_, ?_, ?_, ?_⟩
  · intro α code a de h
    rcases h with h | h <;> subst h <;> rfl
  · intro α w dr de
    cases w <;> rfl
  · intro α w dr de
    cases w <;> rfl
  · intro α w dr de
    cases w <;> rfl
  · intro α code w dr e h
    simp only [List.mem_cons, List.not_mem_nil, or_false, not_or] at h
    obtain ⟨h429, h200, h202, h204, h404⟩ := h
    simp [doRequest, h429, h200, h202, h204, h404, errorMessageText]

/-- Concrete instantiation of `doRequest_classifies_responses`. -/
theorem doRequest_classifies_responses_witness :
    doRequest Nat 200 true (some 7) none = .ok (some 7) ∧
    doRequest Nat 500 false none (some "boom") = .failure "[HTTP 500] boom" :=
  ⟨doRequest_classifies_responses.1 Nat 200 7 none (Or.inl rfl),
   doRequest_classifies_responses.2.2.2.2 Nat 500 false none "boom" (by decide)⟩

/-- C2: `IsBuildActive` classifies exactly the four statuses success,
failure, canceled and unknown as terminal (not active); the statuses
queued, sentToBuilder, started and restarted — and any string outside the
terminal set — are active. -/
theorem isBuildActive_classification :
    (∀ b : Build,
      b.Status = "queued" ∨ b.Status = "sentToBuilder" ∨
        b.Status = "started" ∨ b.Status = "restarted" →
      IsBuildActive b = true) ∧
    (∀ b : Build,
      b.Status = "success" ∨ b.Status = "failure" ∨
        b.Status = "canceled" ∨ b.Status = "unknown" →
      IsBuildActive b = false) ∧
    (∀ b : Build,
      b.Status ∉ (["success", "failure", "canceled", "unknown"] : List String) →
      IsBuildActive b = true) := by
  refine ⟨?_, ?_, ?_⟩
  · intro b h
    unfold IsBuildActive
    rw [if_neg]
    intro hc
    rcases h with h | h | h | h <;> rw [h] at hc <;>
      rcases hc with h1 | h1 | h1 | h1 <;> exact absurd h1 (by decide)
  · intro b h
    unfold IsBuildActive
    rw [if_pos h]
  · intro b h
    unfold IsBuildActive
    rw [if_neg]
    intro hc
    rcases hc with h1 | h1 | h1 | h1 <;> exact h (by rw [h1]; decide)

/-- Concrete instantiation of `isBuildActive_classification`. -/
theorem isBuildActive_classification_witness :
    IsBuildActive ⟨1, "t", "queued", "", ⟨none⟩⟩ = true ∧
    IsBuildActive ⟨1, "t", "success", "", ⟨none⟩⟩ = false ∧
    IsBuildActive ⟨1, "t", "somethingNew", "", ⟨none⟩⟩ = true :=
  ⟨isBuildActive_classification.1 ⟨1, "t", "queued", "", ⟨none⟩⟩ (Or.inl rfl),
   isBuildActive_classification.2.1 ⟨1, "t", "success", "", ⟨none⟩⟩ (Or.inl rfl),
   isBuildActive_classification.2.2 ⟨1, "t", "somethingNew", "", ⟨none⟩⟩ (by decide)⟩

end UnityCloudBuild
